import Mathlib

/-!
# Verification of the skills-analysis engine

Shallow embedding of the comparison/aggregation engine of the repository
(`skills_analysis.py` and the `top_100_*.py` reports).  Count tables are
association lists of `(name, count)` pairs; counts are rationals (the Python
code computes with exact arithmetic on the loaded numbers, floats only by
pandas representation).  Missing values (`pd.NA` / `NaN` produced by
`replace(0, pd.NA)` and NA-propagating arithmetic) are `Option ℚ`.

pandas' `sort_values` is called everywhere with its default
`kind='quicksort'`, whose documented contract is only the ordering by the
key — the relative order of ties is not guaranteed.  Where a property
depends only on that contract (coverage, volatility, buckets — every
theorem over them is tie-order-agnostic), the sort is modelled by
`List.insertionSort` on the relevant key, one concrete refinement of the
contract.  The gone/new selectors, whose specified behaviour concerns the
order of ties, are instead modelled by the contract itself, as a relation
between input and admissible outputs.
pandas' `groupby(..., as_index=False)[...].sum()` sorts the group keys
ascending (its default `sort=True`); it is modelled by sorting the
deduplicated keys and summing the matching counts.
-/

namespace SkillsAnalysis

/-- A count table: `(name, count)` rows (pandas DataFrame with columns
`name` and `count`). -/
abbrev CountTable := List (String × ℚ)

/-- The names (the `name` column) of a count table. -/
def names (t : CountTable) : List String := t.map Prod.fst

/-- Total of the `count` column (`df["count"].sum()`). -/
def totalCount (t : CountTable) : ℚ := (t.map Prod.snd).sum

/-! ## The Delta Engine (`skills_analysis.compute_deltas`) -/

/-- One row of the merged table produced by `compute_deltas`. -/
structure MergedRow where
  name : String
  count_2023 : ℚ
  count_2025 : ℚ
  delta : ℚ
  pct_change : Option ℚ
  volatility : Option ℚ
  growth_bucket : String
  deriving Repr, DecidableEq

/-- The `_bucket` helper inside `compute_deltas`: the ordered rule chain
classifying a (possibly NA) percentage change. -/
def bucketFn (pct : Option ℚ) : String :=
  match pct with
  | none => "New in 2025"
  | some p =>
    if p > 50 then "High growth (>50%)"
    else if p > 10 then "Moderate growth (10-50%)"
    else if p ≥ -10 then "Flat (±10%)"
    else "Decline (>10% decrease)"

/-- `pd.merge(df_2023, df_2025, on="name", how="outer")`: every row of the
left table keeps its position and picks up the matching right count (NA if
unmatched); rows of the right table whose name has no match in the left
table follow, in order.  Each side's count is `Option ℚ` before the
`fillna(0)` step. -/
def mergeOuter (A B : CountTable) : List (String × Option ℚ × Option ℚ) :=
  A.map (fun r => (r.1, some r.2, B.lookup r.1)) ++
    (B.filter (fun r => !((names A).contains r.1))).map
      (fun r => (r.1, none, some r.2))

/-- Build one `MergedRow` from an outer-merge row: `fillna(0)`, then
`delta = count_2025 - count_2023`, `pct_change = delta / base * 100` with
`base = count_2023.replace(0, NA)` (NA-propagating), `volatility =
pct_change.abs()` (NA-propagating), and the growth bucket. -/
def mkMergedRow (r : String × Option ℚ × Option ℚ) : MergedRow :=
  let ca : ℚ := r.2.1.getD 0
  let cb : ℚ := r.2.2.getD 0
  let d : ℚ := cb - ca
  let pct : Option ℚ := if ca = 0 then none else some (d / ca * 100)
  { name := r.1
    count_2023 := ca
    count_2025 := cb
    delta := d
    pct_change := pct
    volatility := pct.map (fun p => |p|)
    growth_bucket := bucketFn pct }

/-- `compute_deltas(df_2023, df_2025)`: outer-merge the two count tables on
`name` and compute delta, percentage change, volatility and growth bucket
per row. -/
def compute_deltas (A B : CountTable) : List MergedRow :=
  (mergeOuter A B).map mkMergedRow

/-! ## Ranking / Coverage Engine (`compute_cumulative_coverage`) -/

/-- One row of the coverage table. -/
structure CovRow where
  name : String
  count : ℚ
  rank : ℕ
  cum_pct : ℚ
  deriving Repr, DecidableEq

/-- Walk the sorted rows assigning ranks from `i` and accumulating the
running sum `acc` of counts; `cum_pct` is running sum over `total`, times
100. -/
def covAux (total : ℚ) : ℕ → ℚ → CountTable → List CovRow
  | _, _, [] => []
  | i, acc, r :: rest =>
    { name := r.1, count := r.2, rank := i, cum_pct := (acc + r.2) / total * 100 } ::
      covAux total (i + 1) (acc + r.2) rest

/-- `compute_cumulative_coverage(df)`: sort by `count` descending, assign
`rank = 1..N`, and set `cum_pct = cumsum(count) / total * 100`.  The code
performs no zero-total check before dividing. -/
def compute_cumulative_coverage (df : CountTable) : List CovRow :=
  let sorted := df.insertionSort (fun u v => v.2 ≤ u.2)
  covAux (totalCount sorted) 1 0 sorted

/-! ## Canonicalizer (`apply_similarity_mapping`) -/

/-- `df.groupby("_canonical", as_index=False)["count"].sum()`: group keys
sorted ascending (pandas' default `sort=True`), each with the sum of the
counts of its rows. -/
def groupby_sum (l : CountTable) : CountTable :=
  ((names l).dedup.insertionSort (fun u v => u ≤ v)).map
    (fun k => (k, totalCount (l.filter (fun r => r.1 == k))))

/-- `mapping.get(name, name)`: single-step lookup, unmapped names pass
through unchanged (`df["name"].map(mapping).fillna(df["name"])`). -/
def canonicalName (mapping : List (String × String)) (n : String) : String :=
  (mapping.lookup n).getD n

/-- `apply_similarity_mapping(df, mapping)`: identity when the mapping is
empty, otherwise rewrite each name through the mapping and group by the
canonical name, summing counts. -/
def apply_similarity_mapping (df : CountTable) (mapping : List (String × String)) :
    CountTable :=
  if mapping = [] then df
  else groupby_sum (df.map (fun r => (canonicalName mapping r.1, r.2)))

/-! ## Top-N selectors (`top_100_gone_skills.get_gone_skills`,
`top_100_new_skills.get_new_skills`,
`top_100_volatile_skills.get_volatile_skills`,
`top_100_growth_buckets.bucket_skills`) -/

/-- The documented contract of `sort_values(by, ascending=False)` with the
default `kind='quicksort'`: the output is a permutation of the input,
descending in the key; the relative order of tied keys is NOT guaranteed
(pandas only guarantees it for `kind='stable'`/`'mergesort'`). -/
def sort_values_desc (l out : CountTable) : Prop :=
  out.Perm l ∧ out.Pairwise (fun u v => v.2 ≤ u.2)

/-- `get_gone_skills(counts_2023, counts_2025, top_n)`: rows of the 2023
table whose name is not in the 2025 table (`~isin`), sorted by the 2023
count descending (`sort_values`, default non-stable kind) and truncated to
`top_n`.  Because the sort's tie order is unspecified, the selector is the
relation between its inputs and the outputs its sort contract admits. -/
def get_gone_skills (counts_2023 counts_2025 : CountTable) (top_n : ℕ)
    (out : CountTable) : Prop :=
  ∃ sorted, sort_values_desc
      (counts_2023.filter (fun r => !((names counts_2025).contains r.1))) sorted ∧
    out = sorted.take top_n

/-- `get_new_skills(counts_2023, counts_2025, top_n)`: rows of the 2025
table whose name is not in the 2023 table, sorted by the 2025 count
descending (`sort_values`, default non-stable kind) and truncated to
`top_n`; modelled as a relation exactly like `get_gone_skills`. -/
def get_new_skills (counts_2023 counts_2025 : CountTable) (top_n : ℕ)
    (out : CountTable) : Prop :=
  ∃ sorted, sort_values_desc
      (counts_2025.filter (fun r => !((names counts_2023).contains r.1))) sorted ∧
    out = sorted.take top_n

/-- One row of the volatility report (columns `name`, `volatility`,
`pct_change`). -/
structure VRow where
  name : String
  volatility : Option ℚ
  pct_change : Option ℚ
  deriving Repr, DecidableEq

/-- The column selection `[["name", "volatility", "pct_change"]]`. -/
def vrowOf (r : MergedRow) : VRow :=
  { name := r.name, volatility := r.volatility, pct_change := r.pct_change }

/-- `get_volatile_skills(counts_2023, counts_2025, top_n)`: compute deltas,
drop rows with NA `pct_change` (`dropna(subset=["pct_change"])`), sort by
`volatility` descending, truncate to `top_n`, and keep the columns `name`,
`volatility`, `pct_change`. -/
def get_volatile_skills (counts_2023 counts_2025 : CountTable) (top_n : ℕ) :
    List VRow :=
  let deltas := compute_deltas counts_2023 counts_2025
  let shared := deltas.filter (fun r => r.pct_change.isSome)
  ((shared.insertionSort
      (fun u v => v.volatility.getD 0 ≤ u.volatility.getD 0)).take top_n).map vrowOf

/-- One row of a per-bucket report (columns `name`, `pct_change`,
`count_2023`, `count_2025`). -/
structure BRow where
  name : String
  pct_change : Option ℚ
  count_2023 : ℚ
  count_2025 : ℚ
  deriving Repr, DecidableEq

/-- The column selection `[["name", "pct_change", "count_2023", "count_2025"]]`. -/
def browOf (r : MergedRow) : BRow :=
  { name := r.name, pct_change := r.pct_change,
    count_2023 := r.count_2023, count_2025 := r.count_2025 }

/-- The fixed bucket label order used by `bucket_skills`. -/
def bucketOrder : List String :=
  ["High growth (>50%)", "Moderate growth (10-50%)", "Flat (±10%)",
   "Decline (>10% decrease)"]

/-- `bucket_skills(counts_2023, counts_2025, top_n)`: for each of the four
fixed bucket labels, filter the merged table to that bucket, sort by
`pct_change` (ascending for the decline bucket, descending otherwise),
truncate to `top_n`, and keep the report columns. -/
def bucket_skills (counts_2023 counts_2025 : CountTable) (top_n : ℕ) :
    List (String × List BRow) :=
  let deltas := compute_deltas counts_2023 counts_2025
  bucketOrder.map (fun label =>
    let subset := deltas.filter (fun r => r.growth_bucket == label)
    let sorted :=
      if label = "Decline (>10% decrease)" then
        subset.insertionSort (fun u v => u.pct_change.getD 0 ≤ v.pct_change.getD 0)
      else
        subset.insertionSort (fun u v => v.pct_change.getD 0 ≤ u.pct_change.getD 0)
    (label, (sorted.take top_n).map browOf))

/-! ## Helper lemmas about `List.insertionSort` -/

/-- Sorting descending by a rational key yields a descending chain. -/
theorem pairwise_sort_desc_key {α : Type} (k : α → ℚ) (l : List α) :
    (l.insertionSort (fun u v => k v ≤ k u)).Pairwise (fun u v => k v ≤ k u) := by
  haveI : IsTotal α (fun u v => k v ≤ k u) := ⟨fun a b => le_total (k b) (k a)⟩
  haveI : IsTrans α (fun u v => k v ≤ k u) :=
    ⟨fun _ _ _ hab hbc => le_trans hbc hab⟩
  exact List.sorted_insertionSort _ l

/-- Sorting ascending by a rational key yields an ascending chain. -/
theorem pairwise_sort_asc_key {α : Type} (k : α → ℚ) (l : List α) :
    (l.insertionSort (fun u v => k u ≤ k v)).Pairwise (fun u v => k u ≤ k v) := by
  haveI : IsTotal α (fun u v => k u ≤ k v) := ⟨fun a b => le_total (k a) (k b)⟩
  haveI : IsTrans α (fun u v => k u ≤ k v) :=
    ⟨fun _ _ _ hab hbc => le_trans hab hbc⟩
  exact List.sorted_insertionSort _ l

/-- The descending-by-count sort used throughout is sorted:
`v.2 ≤ u.2` holds along the output. -/
theorem pairwise_sort_desc_count (l : CountTable) :
    (l.insertionSort (fun u v => v.2 ≤ u.2)).Pairwise (fun u v => v.2 ≤ u.2) :=
  pairwise_sort_desc_key Prod.snd l

/-! ## Helper lemmas about the Delta Engine -/

theorem mkMergedRow_name (r : String × Option ℚ × Option ℚ) :
    (mkMergedRow r).name = r.1 := rfl

theorem mkMergedRow_count_2023 (r : String × Option ℚ × Option ℚ) :
    (mkMergedRow r).count_2023 = r.2.1.getD 0 := rfl

theorem mkMergedRow_count_2025 (r : String × Option ℚ × Option ℚ) :
    (mkMergedRow r).count_2025 = r.2.2.getD 0 := rfl

theorem mkMergedRow_delta (r : String × Option ℚ × Option ℚ) :
    (mkMergedRow r).delta = r.2.2.getD 0 - r.2.1.getD 0 := rfl

theorem mkMergedRow_pct_change (r : String × Option ℚ × Option ℚ) :
    (mkMergedRow r).pct_change =
      if r.2.1.getD 0 = 0 then none
      else some ((r.2.2.getD 0 - r.2.1.getD 0) / r.2.1.getD 0 * 100) := by
  unfold mkMergedRow
  by_cases h : r.2.1.getD 0 = 0 <;> simp [h]

theorem mkMergedRow_volatility (r : String × Option ℚ × Option ℚ) :
    (mkMergedRow r).volatility = (mkMergedRow r).pct_change.map (fun p => |p|) := rfl

theorem mkMergedRow_growth_bucket (r : String × Option ℚ × Option ℚ) :
    (mkMergedRow r).growth_bucket = bucketFn (mkMergedRow r).pct_change := rfl

/-- Every row of `compute_deltas` is `mkMergedRow` of some outer-merge row. -/
theorem compute_deltas_mem {A B : CountTable} {row : MergedRow}
    (h : row ∈ compute_deltas A B) :
    ∃ r ∈ mergeOuter A B, row = mkMergedRow r := by
  obtain ⟨r, hr, hrow⟩ := List.mem_map.mp h
  exact ⟨r, hr, hrow.symm⟩

/-- In every merged row, `pct_change` is defined via the zero-replaced base:
NA exactly when `count_2023 = 0`, else the exact percentage formula. -/
theorem pct_change_spec {A B : CountTable} {row : MergedRow}
    (h : row ∈ compute_deltas A B) :
    (row.count_2023 = 0 → row.pct_change = none) ∧
      (row.count_2023 ≠ 0 →
        row.pct_change =
          some ((row.count_2025 - row.count_2023) / row.count_2023 * 100)) := by
  obtain ⟨r, _, rfl⟩ := compute_deltas_mem h
  rw [mkMergedRow_pct_change, mkMergedRow_count_2023, mkMergedRow_count_2025]
  by_cases h0 : r.2.1.getD 0 = 0 <;> simp [h0]

theorem volatility_spec {A B : CountTable} {row : MergedRow}
    (h : row ∈ compute_deltas A B) :
    row.volatility = row.pct_change.map (fun p => |p|) := by
  obtain ⟨r, _, rfl⟩ := compute_deltas_mem h
  exact mkMergedRow_volatility r

theorem growth_bucket_spec {A B : CountTable} {row : MergedRow}
    (h : row ∈ compute_deltas A B) :
    row.growth_bucket = bucketFn row.pct_change := by
  obtain ⟨r, _, rfl⟩ := compute_deltas_mem h
  exact mkMergedRow_growth_bucket r

/-- `List.lookup` yields `none` exactly on missing keys. -/
theorem lookup_eq_none_iff (t : CountTable) (s : String) :
    t.lookup s = none ↔ s ∉ names t := by
  induction t with
  | nil => simp [names]
  | cons r t ih =>
    simp only [List.lookup, names, List.map_cons, List.mem_cons]
    by_cases h : s = r.1
    · simp [h]
    · have hb : (s == r.1) = false := by simp [h]
      simp [hb, ih, names, h]

/-- The names of the merged table: the names of `A` followed by the names of
`B` with no match in `A`. -/
theorem compute_deltas_names (A B : CountTable) :
    (compute_deltas A B).map MergedRow.name =
      names A ++ (B.filter (fun r => !((names A).contains r.1))).map Prod.fst := by
  unfold compute_deltas mergeOuter
  simp [names, Function.comp_def, mkMergedRow_name]

/-- Decompose membership in the outer merge: a row either comes from the
left table (with the looked-up right count) or from an unmatched right row. -/
theorem mergeOuter_mem {A B : CountTable} {r : String × Option ℚ × Option ℚ}
    (h : r ∈ mergeOuter A B) :
    (∃ a ∈ A, r = (a.1, some a.2, B.lookup a.1)) ∨
      (∃ b ∈ B, b.1 ∉ names A ∧ r = (b.1, none, some b.2)) := by
  rcases List.mem_append.mp h with hl | hr
  · obtain ⟨a, ha, rfl⟩ := List.mem_map.mp hl
    exact Or.inl ⟨a, ha, rfl⟩
  · obtain ⟨b, hb, rfl⟩ := List.mem_map.mp hr
    obtain ⟨hbB, hq⟩ := List.mem_filter.mp hb
    refine Or.inr ⟨b, hbB, ?_, rfl⟩
    intro hmem
    exact absurd hmem (by simpa using hq)

/-! ## Helper lemmas about the Coverage Engine -/

theorem covAux_length (total : ℚ) :
    ∀ (l : CountTable) (i : ℕ) (acc : ℚ), (covAux total i acc l).length = l.length := by
  intro l
  induction l with
  | nil => intro i acc; rfl
  | cons r t ih => intro i acc; simp [covAux, ih]

/-- `covAux` keeps the `(name, count)` data of its input, in order. -/
theorem covAux_map_namecount (total : ℚ) :
    ∀ (l : CountTable) (i : ℕ) (acc : ℚ),
      (covAux total i acc l).map (fun r => (r.name, r.count)) = l := by
  intro l
  induction l with
  | nil => intro i acc; rfl
  | cons r t ih => intro i acc; simp [covAux, ih]

theorem covAux_map_count (total : ℚ) (l : CountTable) (i : ℕ) (acc : ℚ) :
    (covAux total i acc l).map CovRow.count = l.map Prod.snd := by
  have h := congrArg (List.map Prod.snd) (covAux_map_namecount total l i acc)
  simpa [Function.comp_def] using h

theorem covAux_map_rank (total : ℚ) :
    ∀ (l : CountTable) (i : ℕ) (acc : ℚ),
      (covAux total i acc l).map CovRow.rank = List.range' i l.length := by
  intro l
  induction l with
  | nil => intro i acc; rfl
  | cons r t ih => intro i acc; simp [covAux, ih, List.range']

/-- The cumulative percentage at position `j`: accumulator plus the running
sum of the first `j + 1` counts, over `total`, times 100. -/
theorem covAux_cum (total : ℚ) :
    ∀ (l : CountTable) (i : ℕ) (acc : ℚ) (j : ℕ)
      (hj : j < (covAux total i acc l).length),
      ((covAux total i acc l).get ⟨j, hj⟩).cum_pct =
        (acc + ((l.map Prod.snd).take (j + 1)).sum) / total * 100 := by
  intro l
  induction l with
  | nil => intro i acc j hj; simp [covAux] at hj
  | cons r t ih =>
    intro i acc j hj
    cases j with
    | zero => simp [covAux]
    | succ j =>
      have hj' : j < (covAux total (i + 1) (acc + r.2) t).length := by
        simpa [covAux] using hj
      have hstep := ih (i + 1) (acc + r.2) j hj'
      simpa [covAux, List.take_succ_cons, add_assoc] using hstep

/-! ## Helper lemmas about the Canonicalizer -/

theorem totalCount_nil : totalCount [] = 0 := rfl

theorem totalCount_cons (r : String × ℚ) (t : CountTable) :
    totalCount (r :: t) = r.2 + totalCount t := by
  simp [totalCount]

theorem groupby_sum_keys (l : CountTable) :
    (groupby_sum l).map Prod.fst =
      (names l).dedup.insertionSort (fun u v => u ≤ v) := by
  simp [groupby_sum, Function.comp_def]

theorem sum_map_add {β : Type} (f g : β → ℚ) (ks : List β) :
    (ks.map fun k => f k + g k).sum = (ks.map f).sum + (ks.map g).sum := by
  induction ks with
  | nil => simp
  | cons k t ih => simp [ih]; ring

theorem sum_map_single (a : String) (c : ℚ) (ks : List String)
    (hnd : ks.Nodup) (ha : a ∈ ks) :
    (ks.map fun k => if a = k then c else 0).sum = c := by
  induction ks with
  | nil => cases ha
  | cons k t ih =>
    rcases List.mem_cons.mp ha with rfl | hat
    · have hz : (t.map fun k => if a = k then c else 0).sum = 0 := by
        apply List.sum_eq_zero
        intro x hx
        obtain ⟨y, hy, rfl⟩ := List.mem_map.mp hx
        have : a ≠ y := by
          rintro rfl
          exact (List.nodup_cons.mp hnd).1 hy
        simp [this]
      simp [hz]
    · have hk : a ≠ k := by
        rintro rfl
        exact (List.nodup_cons.mp hnd).1 hat
      simp [hk, ih (List.nodup_cons.mp hnd).2 hat]

/-- Summing, over a duplicate-free list of keys covering every row's name,
the totals of the per-key groups recovers the total of the table. -/
theorem sum_map_filter_eq (l : CountTable) (ks : List String) (hnd : ks.Nodup)
    (hall : ∀ x ∈ l, x.1 ∈ ks) :
    (ks.map fun k => totalCount (l.filter (fun r => r.1 == k))).sum = totalCount l := by
  induction l with
  | nil => simp [totalCount]
  | cons x t ih =>
    have hx : x.1 ∈ ks := hall x (by simp)
    have hsplit : ∀ k : String,
        totalCount ((x :: t).filter (fun r => r.1 == k)) =
          (if x.1 = k then x.2 else 0) + totalCount (t.filter (fun r => r.1 == k)) := by
      intro k
      by_cases h : x.1 = k
      · simp [List.filter_cons, h, totalCount_cons]
      · simp [List.filter_cons, h]
    rw [List.map_congr_left (fun k _ => hsplit k), sum_map_add,
      sum_map_single x.1 x.2 ks hnd hx, ih (fun y hy => hall y (by simp [hy])),
      totalCount_cons]

/-- `groupby(...).sum()` preserves the total count. -/
theorem groupby_sum_total (l : CountTable) :
    totalCount (groupby_sum l) = totalCount l := by
  unfold groupby_sum
  have hmap : ∀ ks : List String,
      totalCount (ks.map fun k => (k, totalCount (l.filter (fun r => r.1 == k)))) =
        (ks.map fun k => totalCount (l.filter (fun r => r.1 == k))).sum := by
    intro ks
    simp [totalCount, Function.comp_def]
  rw [hmap]
  have hperm :
      (((names l).dedup.insertionSort (fun u v => u ≤ v)).map
          (fun k => totalCount (l.filter (fun r => r.1 == k)))).sum =
        ((names l).dedup.map
          (fun k => totalCount (l.filter (fun r => r.1 == k)))).sum :=
    ((List.perm_insertionSort _ _).map _).sum_eq
  rw [hperm]
  exact sum_map_filter_eq l (names l).dedup (List.nodup_dedup _)
    (fun x hx => List.mem_dedup.mpr (List.mem_map_of_mem Prod.fst hx))

/-! ## C1 -/

/-- C1: for count tables `A` and `B` with unique names, `compute_deltas A B`
contains exactly the union of the names of `A` and `B`, each exactly once,
and a name present in only one table receives count 0 for the other
snapshot. -/
theorem claim_C1 (A B : CountTable) (hA : (names A).Nodup) (hB : (names B).Nodup) :
    ((compute_deltas A B).map MergedRow.name).Nodup ∧
      (∀ s : String,
        s ∈ (compute_deltas A B).map MergedRow.name ↔ s ∈ names A ∨ s ∈ names B) ∧
      (∀ row ∈ compute_deltas A B, row.name ∉ names B → row.count_2025 = 0) ∧
      (∀ row ∈ compute_deltas A B, row.name ∉ names A → row.count_2023 = 0) := by
  have hnames := compute_deltas_names A B
  have hfsub : List.Sublist
      ((B.filter (fun r => !((names A).contains r.1))).map Prod.fst) (names B) :=
    (List.filter_sublist B).map Prod.fst
  have hfmem : ∀ s, s ∈ (B.filter (fun r => !((names A).contains r.1))).map Prod.fst →
      s ∈ names B ∧ s ∉ names A := by
    intro s hs
    obtain ⟨b, hb, rfl⟩ := List.mem_map.mp hs
    obtain ⟨hbB, hq⟩ := List.mem_filter.mp hb
    refine ⟨List.mem_map_of_mem Prod.fst hbB, fun hmem => ?_⟩
    exact absurd hmem (by simpa using hq)
  refine ⟨?_, ?_, ?_, ?_⟩
  · rw [hnames, List.nodup_append]
    exact ⟨hA, hB.sublist hfsub, fun s hsA hsF => (hfmem s hsF).2 hsA⟩
  · intro s
    rw [hnames, List.mem_append]
    constructor
    · rintro (hs | hs)
      · exact Or.inl hs
      · exact Or.inr (hfmem s hs).1
    · rintro (hs | hs)
      · exact Or.inl hs
      · by_cases hsA : s ∈ names A
        · exact Or.inl hsA
        · obtain ⟨b, hb, rfl⟩ := List.mem_map.mp hs
          refine Or.inr (List.mem_map_of_mem Prod.fst (List.mem_filter.mpr ⟨hb, ?_⟩))
          simpa using hsA
  · intro row hrow hnotB
    obtain ⟨r, hr, rfl⟩ := compute_deltas_mem hrow
    rcases mergeOuter_mem hr with ⟨a, _, rfl⟩ | ⟨b, hbB, _, rfl⟩
    · rw [mkMergedRow_count_2025]
      have : B.lookup a.1 = none := (lookup_eq_none_iff B a.1).mpr (by
        simpa [mkMergedRow_name] using hnotB)
      simp [this]
    · exact absurd (List.mem_map_of_mem Prod.fst hbB)
        (by simpa [mkMergedRow_name, names] using hnotB)
  · intro row hrow hnotA
    obtain ⟨r, hr, rfl⟩ := compute_deltas_mem hrow
    rcases mergeOuter_mem hr with ⟨a, haA, rfl⟩ | ⟨b, _, _, rfl⟩
    · exact absurd (List.mem_map_of_mem Prod.fst haA)
        (by simpa [mkMergedRow_name, names] using hnotA)
    · rw [mkMergedRow_count_2023]
      rfl

/-- Witness for C1 at concrete tables. -/
theorem claim_C1_witness :
    ((compute_deltas [("a", 1)] [("b", 2)]).map MergedRow.name).Nodup ∧
      (∀ s : String,
        s ∈ (compute_deltas [("a", 1)] [("b", 2)]).map MergedRow.name ↔
          s ∈ names [("a", 1)] ∨ s ∈ names [("b", 2)]) ∧
      (∀ row ∈ compute_deltas [("a", 1)] [("b", 2)],
        row.name ∉ names [("b", 2)] → row.count_2025 = 0) ∧
      (∀ row ∈ compute_deltas [("a", 1)] [("b", 2)],
        row.name ∉ names [("a", 1)] → row.count_2023 = 0) :=
  claim_C1 [("a", 1)] [("b", 2)] (by decide) (by decide)

/-! ## C2 -/

/-- C2: in every merged record, when `count_2023 ≠ 0` the percentage change
is exactly `(count_2025 - count_2023) / count_2023 * 100`; when
`count_2023 = 0` it is NA (`none`) — in particular never the value zero. -/
theorem claim_C2 (A B : CountTable) :
    ∀ row ∈ compute_deltas A B,
      (row.count_2023 ≠ 0 →
        row.pct_change =
          some ((row.count_2025 - row.count_2023) / row.count_2023 * 100)) ∧
        (row.count_2023 = 0 → row.pct_change = none ∧ row.pct_change ≠ some 0) := by
  intro row hrow
  obtain ⟨hzero, hformula⟩ := pct_change_spec hrow
  refine ⟨fun h => hformula h, fun h => ⟨hzero h, ?_⟩⟩
  rw [hzero h]
  simp

/-- Witness for C2 at a concrete merged record. -/
theorem claim_C2_witness :
    ((mkMergedRow ("x", some 100, some 90)).count_2023 ≠ 0 →
      (mkMergedRow ("x", some 100, some 90)).pct_change =
        some (((mkMergedRow ("x", some 100, some 90)).count_2025 -
            (mkMergedRow ("x", some 100, some 90)).count_2023) /
          (mkMergedRow ("x", some 100, some 90)).count_2023 * 100)) ∧
      ((mkMergedRow ("x", some 100, some 90)).count_2023 = 0 →
        (mkMergedRow ("x", some 100, some 90)).pct_change = none ∧
          (mkMergedRow ("x", some 100, some 90)).pct_change ≠ some 0) :=
  claim_C2 [("x", 100)] [("x", 90)] (mkMergedRow ("x", some 100, some 90))
    (by exact List.mem_singleton_self _)

/-! ## C3 -/

/-- C3: the growth bucket is `bucketFn` of the (possibly NA) percentage
change, and `bucketFn` is the ordered rule chain with first match winning:
NA (exactly the `count_2023 = 0` case) ↦ the new-skills bucket, then
`> 50`, `> 10`, `≥ -10`, otherwise decline.  At the boundary,
`count_2023 = 100, count_2025 = 90` (percentage change `-10`) is "Flat" and
`count_2023 = 100, count_2025 = 89` (percentage change `-11`) is
"Decline". -/
theorem claim_C3 :
    (∀ A B : CountTable, ∀ row ∈ compute_deltas A B,
        row.growth_bucket = bucketFn row.pct_change ∧
          (row.pct_change = none ↔ row.count_2023 = 0)) ∧
      bucketFn none = "New in 2025" ∧
      (∀ p : ℚ, 50 < p → bucketFn (some p) = "High growth (>50%)") ∧
      (∀ p : ℚ, ¬ 50 < p → 10 < p → bucketFn (some p) = "Moderate growth (10-50%)") ∧
      (∀ p : ℚ, ¬ 50 < p → ¬ 10 < p → -10 ≤ p → bucketFn (some p) = "Flat (±10%)") ∧
      (∀ p : ℚ, p < -10 → bucketFn (some p) = "Decline (>10% decrease)") ∧
      (∀ row ∈ compute_deltas [("x", 100)] [("x", 90)],
        row.pct_change = some (-10) ∧ row.growth_bucket = "Flat (±10%)") ∧
      (∀ row ∈ compute_deltas [("x", 100)] [("x", 89)],
        row.pct_change = some (-11) ∧
          row.growth_bucket = "Decline (>10% decrease)") := by
  have hflat : ∀ row ∈ compute_deltas [("x", 100)] [("x", 90)],
      row.pct_change = some (-10) ∧ row.growth_bucket = "Flat (±10%)" := by
    intro row hrow
    have hrow' : row = mkMergedRow ("x", some 100, some 90) :=
      List.mem_singleton.mp hrow
    subst hrow'
    have hpct : (mkMergedRow ("x", some 100, some 90)).pct_change = some (-10) := by
      rw [mkMergedRow_pct_change]
      norm_num
    refine ⟨hpct, ?_⟩
    rw [mkMergedRow_growth_bucket, hpct]
    norm_num [bucketFn]
  have hdecl : ∀ row ∈ compute_deltas [("x", 100)] [("x", 89)],
      row.pct_change = some (-11) ∧ row.growth_bucket = "Decline (>10% decrease)" := by
    intro row hrow
    have hrow' : row = mkMergedRow ("x", some 100, some 89) :=
      List.mem_singleton.mp hrow
    subst hrow'
    have hpct : (mkMergedRow ("x", some 100, some 89)).pct_change = some (-11) := by
      rw [mkMergedRow_pct_change]
      norm_num
    refine ⟨hpct, ?_⟩
    rw [mkMergedRow_growth_bucket, hpct]
    norm_num [bucketFn]
  refine ⟨?_, rfl, ?_, ?_, ?_, ?_, hflat, hdecl⟩
  · intro A B row hrow
    refine ⟨growth_bucket_spec hrow, ?_⟩
    obtain ⟨r, _, rfl⟩ := compute_deltas_mem hrow
    rw [mkMergedRow_pct_change, mkMergedRow_count_2023]
    by_cases h0 : r.2.1.getD 0 = 0 <;> simp [h0]
  · intro p h
    simp only [bucketFn]
    rw [if_pos h]
  · intro p h1 h2
    simp only [bucketFn]
    rw [if_neg h1, if_pos h2]
  · intro p h1 h2 h3
    simp only [bucketFn]
    rw [if_neg h1, if_neg h2, if_pos h3]
  · intro p h
    simp only [bucketFn]
    rw [if_neg (by linarith), if_neg (by linarith), if_neg (by linarith)]

/-- Witness for C3 at concrete inputs for each rule of the chain. -/
theorem claim_C3_witness :
    ((mkMergedRow ("x", some 100, some 90)).growth_bucket =
        bucketFn (mkMergedRow ("x", some 100, some 90)).pct_change ∧
      ((mkMergedRow ("x", some 100, some 90)).pct_change = none ↔
        (mkMergedRow ("x", some 100, some 90)).count_2023 = 0)) ∧
      bucketFn (some 60) = "High growth (>50%)" ∧
      bucketFn (some 20) = "Moderate growth (10-50%)" ∧
      bucketFn (some (-10)) = "Flat (±10%)" ∧
      bucketFn (some (-11)) = "Decline (>10% decrease)" :=
  ⟨claim_C3.1 [("x", 100)] [("x", 90)] (mkMergedRow ("x", some 100, some 90))
      (by exact List.mem_singleton_self _),
    claim_C3.2.2.1 60 (by norm_num),
    claim_C3.2.2.2.1 20 (by norm_num) (by norm_num),
    claim_C3.2.2.2.2.1 (-10) (by norm_num) (by norm_num) (by norm_num),
    claim_C3.2.2.2.2.2.1 (-11) (by norm_num)⟩

/-! ## C6 -/

/-- C6: volatility is the absolute value of the percentage change when the
latter is defined and NA otherwise, and the volatility ranking
(`get_volatile_skills`) only ever returns records whose percentage change —
hence volatility — is defined. -/
theorem claim_C6 :
    (∀ A B : CountTable, ∀ row ∈ compute_deltas A B,
        row.volatility = row.pct_change.map (fun p => |p|)) ∧
      (∀ A B : CountTable, ∀ n : ℕ, ∀ v ∈ get_volatile_skills A B n,
        v.pct_change.isSome = true ∧ v.volatility.isSome = true) := by
  refine ⟨fun A B row hrow => volatility_spec hrow, ?_⟩
  intro A B n v hv
  unfold get_volatile_skills at hv
  obtain ⟨r, hr, rfl⟩ := List.mem_map.mp hv
  have hr' : r ∈ (compute_deltas A B).filter (fun r => r.pct_change.isSome) :=
    (List.mem_insertionSort _).mp (List.mem_of_mem_take hr)
  obtain ⟨hmem, hsome⟩ := List.mem_filter.mp hr'
  obtain ⟨p, hp⟩ := Option.isSome_iff_exists.mp hsome
  refine ⟨hsome, ?_⟩
  show r.volatility.isSome = true
  rw [volatility_spec hmem, hp]
  rfl

/-- Witness for C6 at concrete tables. -/
theorem claim_C6_witness :
    ((mkMergedRow ("a", some 10, some 30)).volatility =
        (mkMergedRow ("a", some 10, some 30)).pct_change.map (fun p => |p|)) ∧
      ((vrowOf (mkMergedRow ("a", some 10, some 30))).pct_change.isSome = true ∧
        (vrowOf (mkMergedRow ("a", some 10, some 30))).volatility.isSome = true) :=
  ⟨claim_C6.1 [("a", 10)] [("a", 30)] (mkMergedRow ("a", some 10, some 30))
      (by exact List.mem_singleton_self _),
    claim_C6.2 [("a", 10)] [("a", 30)] 5 (vrowOf (mkMergedRow ("a", some 10, some 30)))
      (by exact List.mem_singleton_self _)⟩

/-! ## C4 -/

/-- C4: `compute_cumulative_coverage` returns the input rows (as
name/count data) sorted by count descending, with ranks `1..N` and
`cum_pct` equal to the running sum of counts up to that rank over the
total, times 100; on `[("a",50),("b",30),("c",20)]` the ranks are 1,2,3
with `cum_pct` 50, 80, 100, and for positive total the final `cum_pct` is
exactly 100. -/
theorem claim_C4 :
    (∀ df : CountTable, 0 < totalCount df →
      ((compute_cumulative_coverage df).map (fun r => (r.name, r.count))).Perm df ∧
        (compute_cumulative_coverage df).Pairwise (fun u v => v.count ≤ u.count) ∧
        (compute_cumulative_coverage df).map CovRow.rank =
          List.range' 1 (compute_cumulative_coverage df).length ∧
        (∀ (j : ℕ) (hj : j < (compute_cumulative_coverage df).length),
          ((compute_cumulative_coverage df).get ⟨j, hj⟩).cum_pct =
            (((compute_cumulative_coverage df).take (j + 1)).map CovRow.count).sum /
              totalCount df * 100) ∧
        (∀ r : CovRow,
          (compute_cumulative_coverage df).getLast? = some r → r.cum_pct = 100)) ∧
      compute_cumulative_coverage [("a", 50), ("b", 30), ("c", 20)] =
        [{ name := "a", count := 50, rank := 1, cum_pct := 50 },
         { name := "b", count := 30, rank := 2, cum_pct := 80 },
         { name := "c", count := 20, rank := 3, cum_pct := 100 }] := by
  constructor
  · intro df hpos
    set S := df.insertionSort (fun u v => v.2 ≤ u.2) with hS
    have hperm : S.Perm df := List.perm_insertionSort _ df
    have htot : totalCount S = totalCount df := (hperm.map Prod.snd).sum_eq
    have hout : compute_cumulative_coverage df = covAux (totalCount S) 1 0 S := rfl
    have hmapnc := covAux_map_namecount (totalCount S) S 1 0
    have hmapc := covAux_map_count (totalCount S) S 1 0
    have hlen := covAux_length (totalCount S) S 1 0
    refine ⟨?_, ?_, ?_, ?_, ?_⟩
    · rw [hout, hmapnc]
      exact hperm
    · rw [hout]
      have hps : S.Pairwise (fun u v => v.2 ≤ u.2) := pairwise_sort_desc_count df
      rw [← hmapnc] at hps
      exact List.pairwise_map.mp hps
    · rw [hout, covAux_map_rank, hlen]
    · intro j hj
      have hj' : j < (covAux (totalCount S) 1 0 S).length := hj
      show ((covAux (totalCount S) 1 0 S).get ⟨j, hj'⟩).cum_pct =
        (((covAux (totalCount S) 1 0 S).take (j + 1)).map CovRow.count).sum /
          totalCount df * 100
      rw [covAux_cum (totalCount S) S 1 0 j hj', zero_add]
      rw [show ((List.take (j + 1) (covAux (totalCount S) 1 0 S)).map
            CovRow.count).sum = (((S.map Prod.snd)).take (j + 1)).sum from by
          rw [List.map_take, hmapc]]
      rw [htot]
    · intro r hr
      rw [hout] at hr
      have hne : covAux (totalCount S) 1 0 S ≠ [] := by
        intro hnil
        rw [hnil] at hr
        exact Option.noConfusion hr
      have hlpos : 0 < (covAux (totalCount S) 1 0 S).length :=
        List.length_pos.mpr hne
      have hj : (covAux (totalCount S) 1 0 S).length - 1 <
          (covAux (totalCount S) 1 0 S).length := by omega
      have hget : (covAux (totalCount S) 1 0 S).getLast? =
          some ((covAux (totalCount S) 1 0 S).get
            ⟨(covAux (totalCount S) 1 0 S).length - 1, hj⟩) := by
        rw [List.getLast?_eq_getLast _ hne]
        congr 1
        rw [List.getLast_eq_getElem, List.get_eq_getElem]
      rw [hget] at hr
      have hr' := Option.some.inj hr
      have hcum := covAux_cum (totalCount S) S 1 0
        ((covAux (totalCount S) 1 0 S).length - 1) hj
      have htake : ((S.map Prod.snd).take
          ((covAux (totalCount S) 1 0 S).length - 1 + 1)) = S.map Prod.snd := by
        apply List.take_of_length_le
        rw [List.length_map, ← hlen]
        omega
      rw [htake, zero_add] at hcum
      have hTs : (S.map Prod.snd).sum = totalCount S := rfl
      rw [hTs] at hcum
      have hne0 : totalCount S ≠ 0 := by
        rw [htot]
        exact ne_of_gt hpos
      rw [← hr', hcum, div_self hne0, one_mul]
  · have hsort : (([("a", 50), ("b", 30), ("c", 20)] : CountTable).insertionSort
        (fun u v => v.2 ≤ u.2)) = [("a", 50), ("b", 30), ("c", 20)] := by
      norm_num [List.insertionSort, List.orderedInsert]
    have htot : totalCount
        (([("a", 50), ("b", 30), ("c", 20)] : CountTable).insertionSort
          (fun u v => v.2 ≤ u.2)) = 100 := by
      rw [hsort]
      norm_num [totalCount]
    show covAux _ 1 0 _ = _
    rw [htot, hsort]
    simp only [covAux]
    norm_num

/-- Witness for C4 at a concrete table with positive total. -/
theorem claim_C4_witness :
    ((compute_cumulative_coverage [("a", 50), ("b", 30), ("c", 20)]).map
        (fun r => (r.name, r.count))).Perm [("a", 50), ("b", 30), ("c", 20)] ∧
      (compute_cumulative_coverage [("a", 50), ("b", 30), ("c", 20)]).Pairwise
        (fun u v => v.count ≤ u.count) ∧
      (compute_cumulative_coverage [("a", 50), ("b", 30), ("c", 20)]).map
          CovRow.rank =
        List.range' 1
          (compute_cumulative_coverage [("a", 50), ("b", 30), ("c", 20)]).length ∧
      (∀ (j : ℕ)
        (hj : j < (compute_cumulative_coverage [("a", 50), ("b", 30), ("c", 20)]).length),
        ((compute_cumulative_coverage [("a", 50), ("b", 30), ("c", 20)]).get
            ⟨j, hj⟩).cum_pct =
          (((compute_cumulative_coverage [("a", 50), ("b", 30), ("c", 20)]).take
              (j + 1)).map CovRow.count).sum /
            totalCount [("a", 50), ("b", 30), ("c", 20)] * 100) ∧
      (∀ r : CovRow,
        (compute_cumulative_coverage [("a", 50), ("b", 30), ("c", 20)]).getLast? =
          some r → r.cum_pct = 100) :=
  claim_C4.1 [("a", 50), ("b", 30), ("c", 20)] (by norm_num [totalCount])

/-! ## C5 -/

/-- C5 (failing input): on the zero-total table `[("a", 0)]`,
`compute_cumulative_coverage` raises no error: it divides anyway and
returns an ordinary row (the division by the zero total is `0/0`, NaN for
the floating-point code, `0` under the rational embedding's convention). -/
theorem claim_C5_eval :
    compute_cumulative_coverage [("a", 0)] =
      [{ name := "a", count := 0, rank := 1, cum_pct := 0 }] := by
  have hsort : (([("a", 0)] : CountTable).insertionSort (fun u v => v.2 ≤ u.2)) =
      [("a", 0)] := by
    norm_num [List.insertionSort, List.orderedInsert]
  show covAux _ 1 0 _ = _
  rw [hsort]
  simp only [covAux]
  norm_num [totalCount]

/-! ## C7 -/

/-- C7 (code bug): the claim (and spec section 4.3, "stable sort required")
says the gone/new selectors sort with ties preserving input order, but both
call `sort_values` with its default non-stable `kind='quicksort'`, whose
contract fixes only the ordering by count.  On two "gone" rows with tied
counts, that contract admits both the input order and the reversed order as
outputs — the claimed stability is not guaranteed by the code; symmetrically
for the new-skills selector. -/
theorem claim_C7_unstable :
    get_gone_skills [("a", 5), ("b", 5)] [] 100 [("a", 5), ("b", 5)] ∧
      get_gone_skills [("a", 5), ("b", 5)] [] 100 [("b", 5), ("a", 5)] ∧
      ([("a", 5), ("b", 5)] : CountTable) ≠ [("b", 5), ("a", 5)] ∧
      get_new_skills [] [("a", 5), ("b", 5)] 100 [("a", 5), ("b", 5)] ∧
      get_new_skills [] [("a", 5), ("b", 5)] 100 [("b", 5), ("a", 5)] := by
  have hpw : ([("a", 5), ("b", 5)] : CountTable).Pairwise
      (fun u v => v.2 ≤ u.2) := by
    norm_num [List.pairwise_cons]
  have hpw' : ([("b", 5), ("a", 5)] : CountTable).Pairwise
      (fun u v => v.2 ≤ u.2) := by
    norm_num [List.pairwise_cons]
  have hswap : ([("b", 5), ("a", 5)] : CountTable).Perm [("a", 5), ("b", 5)] :=
    List.Perm.swap ("a", 5) ("b", 5) []
  refine ⟨⟨[("a", 5), ("b", 5)], ⟨List.Perm.refl _, hpw⟩, rfl⟩,
    ⟨[("b", 5), ("a", 5)], ⟨hswap, hpw'⟩, rfl⟩, ?_,
    ⟨[("a", 5), ("b", 5)], ⟨List.Perm.refl _, hpw⟩, rfl⟩,
    ⟨[("b", 5), ("a", 5)], ⟨hswap, hpw'⟩, rfl⟩⟩
  intro h
  have : ("a", (5 : ℚ)) = ("b", 5) := by
    injection h
  simp at this

/-! ## C8 -/

/-- C8: the bucketed top-N selector produces exactly the four fixed bucket
labels (the new-skills bucket is excluded); every returned row satisfies
its bucket's condition (its percentage change classifies to that label, and
is in particular defined); the decline bucket is sorted ascending by
percentage change, the three others descending; and no bucket holds more
than `n` rows. -/
theorem claim_C8 (A B : CountTable) (n : ℕ) :
    (bucket_skills A B n).map Prod.fst =
        ["High growth (>50%)", "Moderate growth (10-50%)", "Flat (±10%)",
         "Decline (>10% decrease)"] ∧
      ∀ p ∈ bucket_skills A B n,
        p.2.length ≤ n ∧
          (∀ row ∈ p.2, bucketFn row.pct_change = p.1 ∧ row.pct_change ≠ none) ∧
          (p.1 = "Decline (>10% decrease)" →
            p.2.Pairwise (fun u v => u.pct_change.getD 0 ≤ v.pct_change.getD 0)) ∧
          (p.1 ≠ "Decline (>10% decrease)" →
            p.2.Pairwise (fun u v => v.pct_change.getD 0 ≤ u.pct_change.getD 0)) := by
  constructor
  · simp [bucket_skills, bucketOrder]
  · intro p hp
    obtain ⟨label, hlabel, rfl⟩ := List.mem_map.mp hp
    have hnotnew : label ≠ "New in 2025" := by
      rcases show label = "High growth (>50%)" ∨ label = "Moderate growth (10-50%)" ∨
          label = "Flat (±10%)" ∨ label = "Decline (>10% decrease)" by
          simpa [bucketOrder] using hlabel with rfl | rfl | rfl | rfl <;> decide
    set subset := (compute_deltas A B).filter (fun r => r.growth_bucket == label)
      with hsubset
    have hmemsub : ∀ r ∈ subset, r ∈ compute_deltas A B ∧ r.growth_bucket = label := by
      intro r hr
      have := List.mem_filter.mp hr
      exact ⟨this.1, by simpa using this.2⟩
    have hrowcond : ∀ (L : List MergedRow), (∀ r ∈ L, r ∈ subset) →
        ∀ row ∈ L.map browOf, bucketFn row.pct_change = label ∧
          row.pct_change ≠ none := by
      intro L hL row hrow
      obtain ⟨r, hr, rfl⟩ := List.mem_map.mp hrow
      have hrs := hmemsub r (hL r hr)
      have hb : bucketFn r.pct_change = label := by
        rw [← growth_bucket_spec hrs.1]
        exact hrs.2
      refine ⟨hb, ?_⟩
      intro hnone
      rw [show (browOf r).pct_change = r.pct_change from rfl] at hnone
      rw [hnone] at hb
      exact hnotnew hb.symm
    dsimp only
    by_cases hdec : label = "Decline (>10% decrease)"
    · rw [if_pos hdec]
      refine ⟨?_, ?_, ?_, ?_⟩
      · rw [List.length_map]
        exact List.length_take_le n _
      · exact hrowcond _
          (fun r hr => (List.mem_insertionSort _).mp (List.mem_of_mem_take hr))
      · intro _
        apply List.pairwise_map.mpr
        exact ((pairwise_sort_asc_key (fun r : MergedRow => r.pct_change.getD 0)
          subset).sublist (List.take_sublist n _))
      · intro hcontra
        exact absurd hdec hcontra
    · rw [if_neg hdec]
      refine ⟨?_, ?_, ?_, ?_⟩
      · rw [List.length_map]
        exact List.length_take_le n _
      · exact hrowcond _
          (fun r hr => (List.mem_insertionSort _).mp (List.mem_of_mem_take hr))
      · intro hcontra
        exact absurd hcontra hdec
      · intro _
        apply List.pairwise_map.mpr
        exact ((pairwise_sort_desc_key (fun r : MergedRow => r.pct_change.getD 0)
          subset).sublist (List.take_sublist n _))

/-- Witness for C8 at concrete tables. -/
theorem claim_C8_witness :
    (bucket_skills [("a", 100)] [("a", 200)] 2).map Prod.fst =
        ["High growth (>50%)", "Moderate growth (10-50%)", "Flat (±10%)",
         "Decline (>10% decrease)"] ∧
      ∀ p ∈ bucket_skills [("a", 100)] [("a", 200)] 2,
        p.2.length ≤ 2 ∧
          (∀ row ∈ p.2, bucketFn row.pct_change = p.1 ∧ row.pct_change ≠ none) ∧
          (p.1 = "Decline (>10% decrease)" →
            p.2.Pairwise (fun u v => u.pct_change.getD 0 ≤ v.pct_change.getD 0)) ∧
          (p.1 ≠ "Decline (>10% decrease)" →
            p.2.Pairwise (fun u v => v.pct_change.getD 0 ≤ u.pct_change.getD 0)) :=
  claim_C8 [("a", 100)] [("a", 200)] 2

/-! ## C9 -/

/-- C9: canonicalization resolves each name by a single-step lookup
(unmapped names pass through) and groups by canonical name, summing counts:
`{"js" ↦ "javascript"}` applied to `[("js",10),("javascript",5)]` gives
`[("javascript",15)]`; an empty mapping returns the input unchanged (in its
original row order); in general, for a non-empty mapping the output names
are exactly the canonical names, without duplicates, and each output count
is the sum of the input counts mapping to that name. -/
theorem claim_C9 :
    apply_similarity_mapping [("js", 10), ("javascript", 5)] [("js", "javascript")] =
        [("javascript", 15)] ∧
      (∀ df : CountTable, apply_similarity_mapping df [] = df) ∧
      (∀ (df : CountTable) (m : List (String × String)), m ≠ [] →
        ((apply_similarity_mapping df m).map Prod.fst).Nodup ∧
          (∀ s : String,
            s ∈ (apply_similarity_mapping df m).map Prod.fst ↔
              s ∈ df.map (fun r => canonicalName m r.1)) ∧
          (∀ p ∈ apply_similarity_mapping df m,
            p.2 = totalCount
              (df.filter (fun r => canonicalName m r.1 == p.1)))) := by
  refine ⟨?_, ?_, ?_⟩
  · have h1 : apply_similarity_mapping [("js", 10), ("javascript", 5)]
        [("js", "javascript")] =
        [("javascript", (10 : ℚ) + (5 + 0))] := rfl
    rw [h1]
    norm_num
  · intro df
    simp [apply_similarity_mapping]
  · intro df m hm
    have happ : apply_similarity_mapping df m =
        groupby_sum (df.map (fun r => (canonicalName m r.1, r.2))) := by
      unfold apply_similarity_mapping
      rw [if_neg hm]
    have hnamesl :
        names (df.map (fun r => (canonicalName m r.1, r.2))) =
          df.map (fun r => canonicalName m r.1) := by
      simp [names, Function.comp_def]
    refine ⟨?_, ?_, ?_⟩
    · rw [happ, groupby_sum_keys]
      exact ((List.perm_insertionSort _ _).nodup_iff).mpr (List.nodup_dedup _)
    · intro s
      rw [happ, groupby_sum_keys, ← hnamesl]
      rw [List.mem_insertionSort, List.mem_dedup]
    · intro p hp
      rw [happ] at hp
      unfold groupby_sum at hp
      obtain ⟨k, _, rfl⟩ := List.mem_map.mp hp
      show totalCount ((df.map (fun r => (canonicalName m r.1, r.2))).filter
        (fun r => r.1 == k)) = _
      rw [List.filter_map]
      simp [totalCount, Function.comp_def]

/-- Witness for C9's general clause at a concrete table and mapping. -/
theorem claim_C9_witness :
    ((apply_similarity_mapping [("js", 10), ("javascript", 5)]
        [("js", "javascript")]).map Prod.fst).Nodup ∧
      (∀ s : String,
        s ∈ (apply_similarity_mapping [("js", 10), ("javascript", 5)]
            [("js", "javascript")]).map Prod.fst ↔
          s ∈ ([("js", 10), ("javascript", 5)] : CountTable).map
            (fun r => canonicalName [("js", "javascript")] r.1)) ∧
      (∀ p ∈ apply_similarity_mapping [("js", 10), ("javascript", 5)]
          [("js", "javascript")],
        p.2 = totalCount
          (([("js", 10), ("javascript", 5)] : CountTable).filter
            (fun r => canonicalName [("js", "javascript")] r.1 == p.1))) :=
  claim_C9.2.2 [("js", 10), ("javascript", 5)] [("js", "javascript")] (by decide)

/-! ## C10 -/

/-- C10: canonicalization never creates or destroys count volume — the
total of the output counts equals the total of the input counts, for every
table and every mapping. -/
theorem claim_C10 (df : CountTable) (m : List (String × String)) :
    totalCount (apply_similarity_mapping df m) = totalCount df := by
  unfold apply_similarity_mapping
  by_cases hm : m = []
  · rw [if_pos hm]
  · rw [if_neg hm, groupby_sum_total]
    simp [totalCount, Function.comp_def]

end SkillsAnalysis
